import Mathlib

/-!
Shallow embedding of the FILESAVE file-relay bot (src/bot.py, src/database.py,
src/utils.py) and proofs of the specification claims.

The registry (`Database.data`) is a JSON object; in Python 3 a `dict` preserves
insertion order, so we model each of the two top-level mappings as an
association list with unique keys.  Machine integers are modeled as `Int`
(Python integers are unbounded).  `datetime` values parsed from the fixed
format `%Y-%m-%d %H:%M:%S` are modeled as a six-field record; comparison of
two valid datetimes is chronological, which coincides with the mixed-radix
key order computed by `dtKey` (all fields are range-checked at parse time).
-/

namespace FS

/-- ASCII whitespace as recognised by Python's `str.strip` / `int()` and by
the `\s` class used by `strptime` (we model the ASCII part; the claims never
exercise non-ASCII whitespace). -/
def pyIsSpace (c : Char) : Bool :=
  c = ' ' || c = '\t' || c = '\n' || c = '\r' || c = '\x0b' || c = '\x0c'

/-- ASCII part of Python's `str.lower`. -/
def pyLower (c : Char) : Char :=
  if 'A' ≤ c && c ≤ 'Z' then Char.ofNat (c.toNat + 32) else c

/-- Strip leading and trailing whitespace from a character list
(Python `str.strip()`). -/
def stripSpaces (cs : List Char) : List Char :=
  ((cs.dropWhile pyIsSpace).reverse.dropWhile pyIsSpace).reverse

/-- Decimal value of a digit list (most significant first). -/
def digitsToNat (ds : List Char) : Nat :=
  ds.foldl (fun acc c => acc * 10 + (c.toNat - 48)) 0

/-- Tail of a Python integer literal after its first digit: digits with
single underscores allowed only between digits. -/
def pyDigitsTail : List Char → Bool
  | [] => true
  | c :: rest =>
    if c = '_' then
      match rest with
      | [] => false
      | d :: _ => d.isDigit && pyDigitsTail rest
    else c.isDigit && pyDigitsTail rest

/-- A nonempty digit sequence in Python `int()` syntax (underscores between
digits allowed, ASCII digits only). -/
def pyDigits : List Char → Bool
  | [] => false
  | d :: rest => d.isDigit && pyDigitsTail rest

/-- Python `int(s)` on a character list: strips surrounding whitespace,
allows one optional sign, then digits with optional single underscores.
Returns `none` where Python raises `ValueError`. -/
def pyIntOfChars (cs : List Char) : Option Int :=
  match stripSpaces cs with
  | [] => none
  | c :: rest =>
    if c = '+' then
      if pyDigits rest then some (Int.ofNat (digitsToNat (rest.filter (· ≠ '_'))))
      else none
    else if c = '-' then
      if pyDigits rest then some (-Int.ofNat (digitsToNat (rest.filter (· ≠ '_'))))
      else none
    else
      if pyDigits (c :: rest) then
        some (Int.ofNat (digitsToNat ((c :: rest).filter (· ≠ '_'))))
      else none

/-- Does `l` start with the pattern `q`? -/
def startsWithChars : List Char → List Char → Bool
  | [], _ => true
  | _ :: _, [] => false
  | p :: ps, c :: cs => p == c && startsWithChars ps cs

/-- Python's substring test `q in l` on character lists. -/
def containsSub (q : List Char) (l : List Char) : Bool :=
  l.tails.any (fun t => startsWithChars q t)

/-! ### Datetimes (`datetime.strptime(s, "%Y-%m-%d %H:%M:%S")`) -/

/-- A parsed calendar datetime with second precision. -/
structure DateTime where
  year : Nat
  month : Nat
  day : Nat
  hour : Nat
  minute : Nat
  second : Nat
deriving DecidableEq, Repr

/-- Mixed-radix key; on range-checked datetimes its order is exactly the
chronological order Python uses to compare `datetime` values. -/
def dtKey (d : DateTime) : Nat :=
  d.second + 60 * (d.minute + 60 * (d.hour + 24 * (d.day + 32 * (d.month + 13 * d.year))))

/-- Gregorian leap-year rule used by `datetime`. -/
def isLeapYear (y : Nat) : Bool :=
  y % 4 == 0 && (y % 100 != 0 || y % 400 == 0)

/-- Number of days in a month, as validated by the `datetime` constructor. -/
def daysInMonth (y m : Nat) : Nat :=
  if m == 2 then (if isLeapYear y then 29 else 28)
  else if m == 4 || m == 6 || m == 9 || m == 11 then 30
  else 31

/-- Model of `datetime.strptime(s, "%Y-%m-%d %H:%M:%S")`, returning `none` where
Python raises.  CPython's `_strptime` compiles the format to a regex in
which `%Y` is exactly four digits, `%m`/`%d`/`%H`/`%M`/`%S` are one or two
digits, literal separators must match, a space matches one or more
whitespace characters, and no unconverted data may remain; the `datetime`
constructor then range-checks every field (year ≥ 1, month 1..12,
day 1..days-in-month, hour ≤ 23, minute ≤ 59, second ≤ 59). -/
def parseDateTime (s : String) : Option DateTime :=
  let cs := s.toList
  let yds := cs.takeWhile Char.isDigit
  let r1 := cs.dropWhile Char.isDigit
  match r1 with
  | '-' :: r2 =>
    let mds := r2.takeWhile Char.isDigit
    let r3 := r2.dropWhile Char.isDigit
    match r3 with
    | '-' :: r4 =>
      let dds := r4.takeWhile Char.isDigit
      let r5 := r4.dropWhile Char.isDigit
      let ws := r5.takeWhile pyIsSpace
      let r6 := r5.dropWhile pyIsSpace
      let hds := r6.takeWhile Char.isDigit
      let r7 := r6.dropWhile Char.isDigit
      match r7 with
      | ':' :: r8 =>
        let mids := r8.takeWhile Char.isDigit
        let r9 := r8.dropWhile Char.isDigit
        match r9 with
        | ':' :: r10 =>
          let sds := r10.takeWhile Char.isDigit
          let r11 := r10.dropWhile Char.isDigit
          if r11 = [] && yds.length == 4 && (mds.length == 1 || mds.length == 2)
              && (dds.length == 1 || dds.length == 2) && ws ≠ []
              && (hds.length == 1 || hds.length == 2)
              && (mids.length == 1 || mids.length == 2)
              && (sds.length == 1 || sds.length == 2) then
            let y := digitsToNat yds
            let mo := digitsToNat mds
            let d := digitsToNat dds
            let h := digitsToNat hds
            let mi := digitsToNat mids
            let sec := digitsToNat sds
            if 1 ≤ y && 1 ≤ mo && mo ≤ 12 && 1 ≤ d && d ≤ daysInMonth y mo
                && h ≤ 23 && mi ≤ 59 && sec ≤ 59 then
              some ⟨y, mo, d, h, mi, sec⟩
            else none
          else none
        | _ => none
      | _ => none
    | _ => none
  | _ => none

/-! ### Data model (src/database.py) -/

/-- One stored-file record (the values of the `codes` mapping). -/
structure Entry where
  file_id : String
  file_type : String
  uploader : Int
  uploaded_at : String
  expires_at : Option String
  storage_message_id : Int
  category : String
  locked_to : Option Int
  file_name : Option String
  caption : Option String
  mime_type : Option String
deriving DecidableEq, Repr

/-- Per-user counters (the values of the `users` mapping, keyed by the
stringified user id; `str` is injective on integers so we key by `Int`). -/
structure UserStats where
  uploads : Int
  retrieved : Int
deriving DecidableEq, Repr

/-- The persisted state `Database.data`: two insertion-ordered mappings. -/
structure DB where
  codes : List (String × Entry)
  users : List (Int × UserStats)
deriving DecidableEq, Repr

/-- Dictionary lookup in an association list. -/
def lookupCode : List (String × Entry) → String → Option Entry
  | [], _ => none
  | (k, e) :: rest, c => if k = c then some e else lookupCode rest c

/-- Dictionary lookup in the users mapping. -/
def lookupUser : List (Int × UserStats) → Int → Option UserStats
  | [], _ => none
  | (k, s) :: rest, u => if k = u then some s else lookupUser rest u

/-- Model of `Database.has_code`. -/
def has_code (st : DB) (c : String) : Bool :=
  (lookupCode st.codes c).isSome

/-- Model of `Database.get_code`. -/
def get_code (st : DB) (c : String) : Option Entry :=
  lookupCode st.codes c

/-- Apply `f` to the entry stored at key `c`, in place. -/
def mapAtCode (codes : List (String × Entry)) (c : String) (f : Entry → Entry) :
    List (String × Entry) :=
  codes.map (fun p => if p.1 = c then (p.1, f p.2) else p)

/-- Python dict assignment `d[c] = e`: replaces in place if the key exists
(keeping its position), otherwise appends. -/
def dictSet (codes : List (String × Entry)) (c : String) (e : Entry) :
    List (String × Entry) :=
  if (lookupCode codes c).isSome then mapAtCode codes c (fun _ => e)
  else codes ++ [(c, e)]

/-- Model of `Database.put_code`. -/
def put_code (st : DB) (c : String) (e : Entry) : DB :=
  { st with codes := dictSet st.codes c e }

/-- Model of `Database.update_code`: no-op if the code is absent; otherwise merges the
patch into the entry.  The command surface only ever issues `locked_to` and
`expires_at` patches, so the dict merge is modeled as the corresponding
record update `f`. -/
def update_code (st : DB) (c : String) (f : Entry → Entry) : DB :=
  if (lookupCode st.codes c).isSome then { st with codes := mapAtCode st.codes c f }
  else st

/-- Model of `Database.delete_code`: removes the key if present, no-op otherwise. -/
def delete_code (st : DB) (c : String) : DB :=
  { st with codes := st.codes.filter (fun p => p.1 ≠ c) }

/-- Model of `Database.rename_code`: in one atomic step, succeeds iff `old` is present
and `new` absent; on success `pop(old)` removes the old binding and the dict
assignment to the fresh key `new` appends. -/
def rename_code (st : DB) (old new : String) : Bool × DB :=
  match lookupCode st.codes old with
  | none => (false, st)
  | some e =>
    if (lookupCode st.codes new).isSome then (false, st)
    else (true, { st with codes := st.codes.filter (fun p => p.1 ≠ old) ++ [(new, e)] })

/-- Model of `Database.ensure_user`: lazily create the zeroed counter record. -/
def ensure_user (users : List (Int × UserStats)) (u : Int) :
    List (Int × UserStats) :=
  if (lookupUser users u).isSome then users else users ++ [(u, ⟨0, 0⟩)]

/-- The counter bump `data["users"][uid]["retrieved"] += 1`. -/
def incRetrievedStat (s : UserStats) : UserStats :=
  { s with retrieved := s.retrieved + 1 }

/-- Model of `Database.inc_retrieved` with `by = 1`. -/
def inc_retrieved (st : DB) (u : Int) : DB :=
  let users := ensure_user st.users u
  { st with
    users := users.map (fun p =>
      if p.1 = u then (p.1, incRetrievedStat p.2) else p) }

/-- The retrieved counter visible for a user (0 when no record exists yet). -/
def retrievedCount (st : DB) (u : Int) : Int :=
  match lookupUser st.users u with
  | some s => s.retrieved
  | none => 0

/-- Model of `Database.is_expired`: `False` when `expires_at` is falsy (absent or the
empty string); otherwise parse it with `strptime` and compare `dt <=
datetime.now()`; any parse failure is swallowed and yields `False`. -/
def is_expired (e : Entry) (now : DateTime) : Bool :=
  match e.expires_at with
  | none => false
  | some s =>
    if s = "" then false
    else
      match parseDateTime s with
      | none => false
      | some dt => decide (dtKey dt ≤ dtKey now)

/-! ### Expiry policy (src/utils.py `parse_expiry`) -/

/-- Result of `parse_expiry`.  The Python function returns `None` both for
the never-sentinels and for any unparsable input (the `try` block swallows
the `ValueError` from `int()`), the string `'delete'` for deletion, or a
formatted absolute datetime string.  We model the produced instant as
integer seconds (`datetime.now()` plus the chosen `timedelta`). -/
inductive ExpiryParse
  | noExpiry
  | deleteNow
  | at (t : Int)
deriving DecidableEq, Repr

/-- The ten ASCII digit characters. -/
def digitChars : List Char :=
  ['0', '1', '2', '3', '4', '5', '6', '7', '8', '9']

/-- The sentinel test `v in ('none', 'never', 'nil', 'null', '')`. -/
def isNeverWord (v : List Char) : Bool :=
  v = "none".toList || v = "never".toList || v = "nil".toList
    || v = "null".toList || v = []

/-- Model of `parse_expiry` (src/utils.py:27-55) with `datetime.now()` modeled as the
integer second count `now`.  The input is stripped and lowercased; the
sentinels map to `None`; `'delete'` signals deletion; otherwise a trailing
`h`/`d`/`m` selects hours/days/minutes applied to the Python-`int` parse of
the remaining prefix, a bare integer means minutes, and any `int()` failure
is caught and yields `None`. -/
def parse_expiry (now : Int) (value : String) : ExpiryParse :=
  let v := (stripSpaces value.toList).map pyLower
  if isNeverWord v then .noExpiry
  else if v = "delete".toList then .deleteNow
  else
    match v.getLast? with
    | none => .noExpiry
    | some c =>
      if c = 'h' then
        match pyIntOfChars v.dropLast with
        | some k => .at (now + k * 3600)
        | none => .noExpiry
      else if c = 'd' then
        match pyIntOfChars v.dropLast with
        | some k => .at (now + k * 86400)
        | none => .noExpiry
      else if c = 'm' then
        match pyIntOfChars v.dropLast with
        | some k => .at (now + k * 60)
        | none => .noExpiry
      else
        match pyIntOfChars v with
        | some k => .at (now + k * 60)
        | none => .noExpiry

/-- The registry effect of `/expire <code> <val>` (src/bot.py `on_expire`)
for an authorised requester with the entry present: `delete` deletes the
code, a `None` parse stores `expires_at = None`, and a datetime parse stores
the formatted instant.  `strftime` rendering of the instant is abstracted as
the parameter `fmt` (no claim depends on the rendered text).  Unauthorized
requests and unknown codes leave the registry unchanged. -/
def on_expire (fmt : Int → String) (st : DB) (requester : Int) (admin : Bool)
    (code : String) (val : String) (now : Int) : DB :=
  match get_code st code with
  | none => st
  | some e =>
    if e.uploader ≠ requester ∧ ¬admin then st
    else
      match parse_expiry now val with
      | .deleteNow => delete_code st code
      | .noExpiry => update_code st code (fun en => { en with expires_at := none })
      | .at t => update_code st code (fun en => { en with expires_at := some (fmt t) })

/-! ### Retrieval controller (src/bot.py `handle_retrieval`) -/

/-- The user-visible terminal outcome of a retrieval request: either a
rejection message sent in chat, or the file was delivered. -/
inductive Outcome
  | rejected (msg : String)
  | done
deriving DecidableEq, Repr

/-- The default `send_error` text used for both absent and expired codes. -/
def notFoundMsg : String := "❌ Error: File not found or expired."

/-- The lock-rejection text. -/
def lockedMsg : String := "🔒 This file is locked to its owner and cannot be retrieved by you."

/-- The text sent when both delivery paths failed. -/
def sendFailedMsg : String := "❌ Error: File could not be sent. It may be corrupted or unavailable."

/-- The transport method chosen by `try_send_by_file_id`'s dispatch. -/
inductive SendMethod
  | photo | video | document | audio | voice | animation | sticker
deriving DecidableEq, Repr

/-- Dispatch of `try_send_by_file_id` on `file_type`; unknown kinds fall back
to the document path. -/
def methodFor (ft : String) : SendMethod :=
  if ft = "photo" then .photo
  else if ft = "video" then .video
  else if ft = "document" then .document
  else if ft = "audio" then .audio
  else if ft = "voice" then .voice
  else if ft = "animation" then .animation
  else if ft = "sticker" then .sticker
  else .document

/-- The lock-check condition `locked_to and (message.from_user is None or
message.from_user.id != locked_to)`.  Python truthiness makes both `None`
and `0` pass the check. -/
def lockRejects (locked_to : Option Int) (requester : Option Int) : Bool :=
  match locked_to with
  | none => false
  | some l =>
    if l = 0 then false
    else
      match requester with
      | none => true
      | some r => decide (r ≠ l)

/-- The result of one retrieval request: terminal outcome, resulting
registry state, and which transport calls were attempted. -/
structure RetrievalResult where
  outcome : Outcome
  db : DB
  primaryAttempted : Bool
  fallbackAttempted : Bool
deriving DecidableEq, Repr

/-- Model of `handle_retrieval` (src/bot.py:95-119).  The two transport calls are
modeled as pure results: `send m` is what `try_send_by_file_id` returns when
it dispatches to method `m`, and `copyOk` is what `send_from_storage`
returns (both swallow every transport exception into `False`).  `requester`
is `message.from_user` (`none` when absent); the retrieved counter is
incremented for `from_user.id if from_user else 0`. -/
def handle_retrieval (st : DB) (requester : Option Int) (now : DateTime)
    (code : String) (send : SendMethod → Bool) (copyOk : Bool) : RetrievalResult :=
  match get_code st code with
  | none => ⟨.rejected notFoundMsg, st, false, false⟩
  | some e =>
    if is_expired e now then ⟨.rejected notFoundMsg, st, false, false⟩
    else if lockRejects e.locked_to requester then ⟨.rejected lockedMsg, st, false, false⟩
    else if send (methodFor e.file_type) then
      ⟨.done, inc_retrieved st (requester.getD 0), true, false⟩
    else if copyOk then
      ⟨.done, inc_retrieved st (requester.getD 0), true, true⟩
    else ⟨.rejected sendFailedMsg, st, true, true⟩

/-! ### Rate limiter (src/bot.py `check_rate_limit`) -/

/-- Default `RATE_LIMIT_MAX_FILES` (src/config.py). -/
def RATE_LIMIT_MAX_FILES : Nat := 3

/-- Default `RATE_LIMIT_WINDOW_SEC` (src/config.py). -/
def RATE_LIMIT_WINDOW_SEC : Int := 10

/-- The purge loop `while dq and (now - dq[0] > WINDOW): dq.popleft()`:
drops timestamps from the front while strictly older than `now - window`. -/
def purgeOld (now window : Int) : List Int → List Int
  | [] => []
  | t :: rest => if now - t > window then purgeOld now window rest else t :: rest

/-- Model of `check_rate_limit` for one user's deque (time as integer seconds; the
float arithmetic only ever compares differences against the window).  After
the purge, a count at or above the maximum rejects without appending;
otherwise the attempt time is appended and accepted. -/
def check_rate_limit (maxFiles : Nat) (window : Int) (now : Int)
    (dq : List Int) : Bool × List Int :=
  let dq1 := purgeOld now window dq
  if maxFiles ≤ dq1.length then (false, dq1)
  else (true, dq1 ++ [now])

/-! ### Search (src/database.py `search_codes`) -/

/-- The haystack `' '.join([c, file_type or '', file_name or '', caption or
'', mime_type or '']).lower()`: the five fields joined by single spaces,
absent fields contributing the empty string, then lowercased. -/
def hayOf (c : String) (e : Entry) : List Char :=
  ((c ++ " " ++ e.file_type ++ " " ++ e.file_name.getD "" ++ " "
    ++ e.caption.getD "" ++ " " ++ e.mime_type.getD "").toList).map pyLower

/-- Does an entry match a (pre-lowercased) query per `search_codes`? -/
def searchHit (q : List Char) (p : String × Entry) : Bool :=
  containsSub q (hayOf p.1 p.2)

/-- Python's lexicographic string comparison `a <= b` by code points,
computed on character lists. -/
def charsLe : List Char → List Char → Bool
  | [], _ => true
  | _ :: _, [] => false
  | a :: as, b :: bs => if a = b then charsLe as bs else decide (a < b)

/-- Comparison `a <= b` on strings as Python compares them. -/
def pyStrLe (a b : String) : Bool :=
  charsLe a.toList b.toList

/-- The descending order used by `sort(key=lambda x: x.get("uploaded_at")
or "", reverse=True)`: larger `uploaded_at` strings first (the field is a
string and `or ""` maps only the falsy "" to itself, so the key is the
field). -/
def uploadedDesc (a b : String × Entry) : Prop :=
  pyStrLe b.2.uploaded_at a.2.uploaded_at = true

instance : DecidableRel uploadedDesc := fun a b =>
  inferInstanceAs (Decidable (pyStrLe b.2.uploaded_at a.2.uploaded_at = true))

/-- Model of `Database.search_codes`: lowercase the query, keep the entries whose
haystack contains it, stably sort by `uploaded_at` descending, truncate.
Python's stable sort and the stable insertion sort produce the same list. -/
def search_codes (st : DB) (query : String) (limit : Nat) :
    List (String × Entry) :=
  let q := query.toList.map pyLower
  (List.insertionSort uploadedDesc (st.codes.filter (searchHit q))).take limit

/-- Modelled from the spec's words for comparison with `search_codes`: a
match is case-insensitive substring presence of the keyword in the plain
concatenation of {code, file_kind, file_name, caption, mime_type} with
absent fields contributing the empty string (no separators). -/
def concatHayClaim (c : String) (e : Entry) : List Char :=
  ((c ++ e.file_type ++ e.file_name.getD "" ++ e.caption.getD ""
    ++ e.mime_type.getD "").toList).map pyLower

/-- The claim's match predicate over the plain concatenation. -/
def concatHitClaim (q : List Char) (p : String × Entry) : Bool :=
  containsSub q (concatHayClaim p.1 p.2)

/-! ### Expiry sweeper (src/bot.py `expiry_worker` / `on_storage_clean`) -/

/-- One step of the sweep loop body for a snapshotted code: re-fetch the
live entry (deleted/renamed since the snapshot is a no-op) and, if expired,
delete it (the storage-message delete is external and best-effort). -/
def sweepStep (now : DateTime) (acc : DB) (code : String) : DB :=
  match get_code acc code with
  | none => acc
  | some e => if is_expired e now then delete_code acc code else acc

/-- One full sweep: snapshot the current codes, then run the loop body over
the snapshot.  This is the shared core of the background `expiry_worker`
and the admin `/storage_clean` cleanup. -/
def sweepExpired (st : DB) (now : DateTime) : DB :=
  (st.codes.map Prod.fst).foldl (sweepStep now) st

/-! ### System operations after creation (for the uploader-immutability
frame property) -/

/-- The mutations the command surface and the sweeper can apply to the
registry after an entry exists: locking (`on_lock_code` patches
`locked_to`), renaming, setting or clearing expiry (`on_expire` patches
`expires_at`), explicit deletion, a sweep at some instant, and creation of
entries at fresh codes (`save_file_entry` only assigns codes that are not
yet taken). -/
inductive SysOp
  | lock (code : String) (uid : Int)
  | expireSet (code : String) (ts : String)
  | expireClear (code : String)
  | renameOp (old new : String)
  | deleteOp (code : String)
  | sweep (now : DateTime)
  | create (code : String) (e : Entry)
deriving Repr

/-- Apply one system operation to the registry. -/
def applyOp (st : DB) : SysOp → DB
  | .lock code uid => update_code st code (fun e => { e with locked_to := some uid })
  | .expireSet code ts => update_code st code (fun e => { e with expires_at := some ts })
  | .expireClear code => update_code st code (fun e => { e with expires_at := none })
  | .renameOp old new => (rename_code st old new).2
  | .deleteOp code => delete_code st code
  | .sweep now => sweepExpired st now
  | .create code e => if has_code st code then st else put_code st code e

/-- Track the code under which one particular live entry is reachable
across an operation: renames move it, deletion and expiry eviction end it,
everything else leaves it in place. -/
def trackStep (st : DB) (op : SysOp) : Option String → Option String
  | none => none
  | some c =>
    match op with
    | .lock _ _ => some c
    | .expireSet _ _ => some c
    | .expireClear _ => some c
    | .renameOp old new =>
      if old = c ∧ (rename_code st old new).1 then some new else some c
    | .deleteOp c' => if c' = c then none else some c
    | .sweep now =>
      match get_code st c with
      | none => none
      | some e => if is_expired e now then none else some c
    | .create _ _ => some c

/-- Run a sequence of system operations, tracking one entry's code. -/
def runTrace (ops : List SysOp) (p : DB × Option String) : DB × Option String :=
  ops.foldl (fun q op => (applyOp q.1 op, trackStep q.1 op q.2)) p

/-! ### Concrete states used to witness the theorems -/

/-- A sample stored entry. -/
def entryBase : Entry :=
  { file_id := "AgADfileref", file_type := "photo", uploader := 42,
    uploaded_at := "2025-06-01 10:00:00", expires_at := none,
    storage_message_id := 7, category := "Images", locked_to := none,
    file_name := none, caption := none, mime_type := none }

/-- A reference instant: 2025-06-01 12:00:00. -/
def nowEx : DateTime := ⟨2025, 6, 1, 12, 0, 0⟩

/-- An entry locked to user 7. -/
def entryLocked7 : Entry := { entryBase with locked_to := some 7 }

/-- An entry whose `locked_to` field is set, but to 0 (falsy in Python). -/
def entryLocked0 : Entry := { entryBase with locked_to := some 0 }

/-- An entry that expired on 2025-01-02 03:04:05. -/
def entryExpired : Entry := { entryBase with expires_at := some "2025-01-02 03:04:05" }

/-- An entry whose `expires_at` is present but malformed. -/
def entryBadTs : Entry := { entryBase with expires_at := some "tomorrow-ish" }

/-- An entry with a mixed-case caption, for the search scenario. -/
def entryCaption : Entry :=
  { entryBase with
    caption := some "Hello World"
    file_type := "document"
    uploaded_at := "2025-06-02 09:00:00" }

/-- An entry whose code/file_type join exercises the space-separator. -/
def entryCd : Entry := { entryBase with file_type := "cd" }

/-! ### Lookup lemmas for the association-list dictionaries -/

theorem lookupCode_filter_self (codes : List (String × Entry)) (c : String) :
    lookupCode (codes.filter (fun p => p.1 ≠ c)) c = none := by
  induction codes with
  | nil => rfl
  | cons p rest ih =>
    rw [List.filter_cons]
    by_cases hp : p.1 = c
    · rw [if_neg (by simp [hp])]
      exact ih
    · rw [if_pos (by simp [hp])]
      simp only [lookupCode, if_neg hp]
      exact ih

theorem lookupCode_filter_other (codes : List (String × Entry)) (c c' : String)
    (h : c' ≠ c) :
    lookupCode (codes.filter (fun p => p.1 ≠ c)) c' = lookupCode codes c' := by
  induction codes with
  | nil => rfl
  | cons p rest ih =>
    rw [List.filter_cons]
    by_cases hp : p.1 = c
    · rw [if_neg (by simp [hp])]
      have hne : ¬ p.1 = c' := fun h1 => h (by rw [← h1, hp])
      rw [show lookupCode (p :: rest) c' = lookupCode rest c' by
        simp only [lookupCode, if_neg hne]]
      exact ih
    · rw [if_pos (by simp [hp])]
      simp only [lookupCode]
      by_cases hc : p.1 = c'
      · rw [if_pos hc, if_pos hc]
      · rw [if_neg hc, if_neg hc]
        exact ih

theorem lookupCode_append_none (l1 l2 : List (String × Entry)) (c : String)
    (h : lookupCode l1 c = none) :
    lookupCode (l1 ++ l2) c = lookupCode l2 c := by
  induction l1 with
  | nil => rfl
  | cons p rest ih =>
    by_cases hp : p.1 = c
    · simp [lookupCode, hp] at h
    · rw [List.cons_append]
      simp only [lookupCode, if_neg hp] at h ⊢
      exact ih h

theorem lookupCode_append_some (l1 l2 : List (String × Entry)) (c : String)
    (e : Entry) (h : lookupCode l1 c = some e) :
    lookupCode (l1 ++ l2) c = some e := by
  induction l1 with
  | nil => simp [lookupCode] at h
  | cons p rest ih =>
    by_cases hp : p.1 = c
    · simp only [lookupCode, if_pos hp] at h
      simp [List.cons_append, lookupCode, if_pos hp, h]
    · simp only [lookupCode, if_neg hp] at h
      simp only [List.cons_append, lookupCode, if_neg hp]
      exact ih h

theorem lookupCode_mapAtCode (codes : List (String × Entry)) (c c' : String)
    (f : Entry → Entry) :
    lookupCode (mapAtCode codes c f) c'
      = if c' = c then (lookupCode codes c').map f else lookupCode codes c' := by
  induction codes with
  | nil =>
    by_cases hc : c' = c <;> simp [mapAtCode, lookupCode, hc]
  | cons p rest ih =>
    simp only [mapAtCode, List.map_cons] at ih ⊢
    by_cases hp : p.1 = c
    · rw [if_pos hp]
      simp only [lookupCode]
      by_cases hc : c' = c
      · have hpc : p.1 = c' := hp.trans hc.symm
        rw [if_pos hpc, if_pos hc, if_pos hpc]
        rfl
      · have hpc : ¬ p.1 = c' := fun h1 => hc (h1.symm.trans hp)
        rw [if_neg hpc, if_neg hc, if_neg hpc, ih, if_neg hc]
    · rw [if_neg hp]
      simp only [lookupCode]
      by_cases hpc : p.1 = c'
      · have hc : ¬ c' = c := fun h1 => hp (hpc.trans h1)
        rw [if_pos hpc, if_neg hc, if_pos hpc]
      · rw [if_neg hpc, ih]
        by_cases hc : c' = c
        · rw [if_pos hc, if_pos hc, if_neg hpc]
        · rw [if_neg hc, if_neg hc, if_neg hpc]

theorem lookupCode_dictSet (codes : List (String × Entry)) (c : String)
    (e : Entry) (c' : String) :
    lookupCode (dictSet codes c e) c'
      = if c' = c then some e else lookupCode codes c' := by
  unfold dictSet
  by_cases hpres : (lookupCode codes c).isSome
  · rw [if_pos hpres, lookupCode_mapAtCode]
    by_cases hc : c' = c
    · subst hc
      obtain ⟨x, hx⟩ := Option.isSome_iff_exists.mp hpres
      simp [hx]
    · simp [hc]
  · rw [if_neg hpres]
    have hnone : lookupCode codes c = none := by
      cases h : lookupCode codes c with
      | none => rfl
      | some x => exact absurd (by simp [h]) hpres
    by_cases hc : c' = c
    · subst hc
      rw [lookupCode_append_none _ _ _ hnone]
      simp [lookupCode]
    · cases h' : lookupCode codes c' with
      | none =>
        rw [lookupCode_append_none _ _ _ h', if_neg hc]
        simp only [lookupCode]
        rw [if_neg (fun h1 => hc (Eq.symm h1))]
      | some x =>
        rw [lookupCode_append_some _ _ _ _ h', if_neg hc]

theorem lookupUser_append_none (l1 l2 : List (Int × UserStats)) (u : Int)
    (h : lookupUser l1 u = none) :
    lookupUser (l1 ++ l2) u = lookupUser l2 u := by
  induction l1 with
  | nil => rfl
  | cons p rest ih =>
    by_cases hp : p.1 = u
    · simp [lookupUser, hp] at h
    · rw [List.cons_append]
      simp only [lookupUser, if_neg hp] at h ⊢
      exact ih h

theorem lookupUser_mapAt (users : List (Int × UserStats)) (u v : Int)
    (g : UserStats → UserStats) :
    lookupUser (users.map (fun p => if p.1 = u then (p.1, g p.2) else p)) v
      = if v = u then (lookupUser users v).map g else lookupUser users v := by
  induction users with
  | nil =>
    by_cases hv : v = u <;> simp [lookupUser, hv]
  | cons p rest ih =>
    simp only [List.map_cons]
    by_cases hp : p.1 = u
    · rw [if_pos hp]
      simp only [lookupUser]
      by_cases hv : v = u
      · have hpv : p.1 = v := hp.trans hv.symm
        rw [if_pos hpv, if_pos hv, if_pos hpv]
        rfl
      · have hpv : ¬ p.1 = v := fun h1 => hv (h1.symm.trans hp)
        rw [if_neg hpv, if_neg hv, if_neg hpv, ih, if_neg hv]
    · rw [if_neg hp]
      simp only [lookupUser]
      by_cases hpv : p.1 = v
      · have hv : ¬ v = u := fun h1 => hp (hpv.trans h1)
        rw [if_pos hpv, if_neg hv, if_pos hpv]
      · rw [if_neg hpv, ih]
        by_cases hv : v = u
        · rw [if_pos hv, if_pos hv, if_neg hpv]
        · rw [if_neg hv, if_neg hv, if_neg hpv]

theorem lookupUser_ensure_self (users : List (Int × UserStats)) (u : Int) :
    lookupUser (ensure_user users u) u = some ((lookupUser users u).getD ⟨0, 0⟩) := by
  unfold ensure_user
  cases h : lookupUser users u with
  | some s => simp [h]
  | none =>
    simp only [h, Option.isSome_none, Bool.false_eq_true, if_false]
    rw [lookupUser_append_none _ _ _ h]
    simp [lookupUser]

theorem lookupUser_append_some (l1 l2 : List (Int × UserStats)) (u : Int)
    (s : UserStats) (h : lookupUser l1 u = some s) :
    lookupUser (l1 ++ l2) u = some s := by
  induction l1 with
  | nil => simp [lookupUser] at h
  | cons p rest ih =>
    by_cases hp : p.1 = u
    · simp only [lookupUser, if_pos hp] at h
      simp [List.cons_append, lookupUser, if_pos hp, h]
    · simp only [lookupUser, if_neg hp] at h
      rw [List.cons_append]
      simp only [lookupUser, if_neg hp]
      exact ih h

theorem lookupUser_ensure_other (users : List (Int × UserStats)) (u v : Int)
    (h : v ≠ u) :
    lookupUser (ensure_user users u) v = lookupUser users v := by
  unfold ensure_user
  by_cases hp : (lookupUser users u).isSome
  · rw [if_pos hp]
  · rw [if_neg hp]
    cases h' : lookupUser users v with
    | some s => exact lookupUser_append_some _ _ _ _ h'
    | none =>
      rw [lookupUser_append_none _ _ _ h']
      simp only [lookupUser]
      rw [if_neg (fun h1 => h (Eq.symm h1))]

theorem retrievedCount_inc_self (st : DB) (u : Int) :
    retrievedCount (inc_retrieved st u) u = retrievedCount st u + 1 := by
  unfold retrievedCount inc_retrieved
  rw [lookupUser_mapAt (ensure_user st.users u) u u incRetrievedStat,
    if_pos rfl, lookupUser_ensure_self]
  cases h : lookupUser st.users u <;> simp [h, incRetrievedStat]

theorem lookupUser_inc_other (st : DB) (u v : Int) (h : v ≠ u) :
    lookupUser (inc_retrieved st u).users v = lookupUser st.users v := by
  unfold inc_retrieved
  rw [lookupUser_mapAt (ensure_user st.users u) u v incRetrievedStat, if_neg h]
  exact lookupUser_ensure_other _ _ _ h

theorem inc_retrieved_codes (st : DB) (u : Int) :
    (inc_retrieved st u).codes = st.codes := rfl

theorem uploads_inc_self (st : DB) (u : Int) :
    ((lookupUser (inc_retrieved st u).users u).getD ⟨0, 0⟩).uploads
      = ((lookupUser st.users u).getD ⟨0, 0⟩).uploads := by
  unfold inc_retrieved
  rw [lookupUser_mapAt (ensure_user st.users u) u u incRetrievedStat,
    if_pos rfl, lookupUser_ensure_self]
  cases h : lookupUser st.users u <;> simp [h, incRetrievedStat]

/-! ### Claim C3 -/

/-- C3: for every registry state and pair of codes, `rename_code(old, new)`
returns true iff `old` is present and `new` absent beforehand; when it
returns true, `get(new)` afterwards returns exactly the entry `get(old)`
returned before and `get(old)` afterwards is absent; when it returns false
the entire registry state is unchanged. -/
theorem C3_rename_contract (st : DB) (old new : String) :
    ((rename_code st old new).1 = true ↔
      (get_code st old).isSome ∧ (get_code st new).isNone)
    ∧ ((rename_code st old new).1 = true →
        get_code (rename_code st old new).2 new = get_code st old
        ∧ get_code (rename_code st old new).2 old = none)
    ∧ ((rename_code st old new).1 = false → (rename_code st old new).2 = st) := by
  unfold rename_code get_code
  cases hold : lookupCode st.codes old with
  | none => simp [hold]
  | some e =>
    by_cases hnew : (lookupCode st.codes new).isSome
    · simp only [if_pos hnew]
      refine ⟨?_, ?_, ?_⟩
      · constructor
        · intro h
          exact absurd h (by simp)
        · rintro ⟨-, h2⟩
          rw [Option.isNone_iff_eq_none] at h2
          rw [h2] at hnew
          simp at hnew
      · intro h
        exact absurd h (by simp)
      · intro _
        trivial
    · simp only [if_neg hnew]
      have hnone : lookupCode st.codes new = none := by
        cases h : lookupCode st.codes new with
        | none => rfl
        | some x => exact absurd (by simp [h]) hnew
      have hne : new ≠ old := by
        intro h
        rw [h, hold] at hnone
        exact Option.noConfusion hnone
      refine ⟨by simp [hnone], ?_, by intro h; exact absurd h (by simp)⟩
      intro _
      constructor
      · rw [lookupCode_append_none _ _ _
          (by rw [lookupCode_filter_other st.codes old new hne]; exact hnone)]
        simp [lookupCode]
      · rw [lookupCode_append_none _ _ _ (lookupCode_filter_self st.codes old)]
        simp only [lookupCode]
        rw [if_neg hne]

/-- Witness for C3 at a concrete state: renaming "aa" to "bb" succeeds, the
entry moves, and the old code becomes absent. -/
theorem C3_rename_witness :
    (rename_code ⟨[("aa", entryBase)], []⟩ "aa" "bb").1 = true
    ∧ get_code (rename_code ⟨[("aa", entryBase)], []⟩ "aa" "bb").2 "bb"
        = get_code ⟨[("aa", entryBase)], []⟩ "aa"
    ∧ get_code (rename_code ⟨[("aa", entryBase)], []⟩ "aa" "bb").2 "aa" = none := by
  have h := C3_rename_contract ⟨[("aa", entryBase)], []⟩ "aa" "bb"
  have hok : (rename_code ⟨[("aa", entryBase)], []⟩ "aa" "bb").1 = true :=
    h.1.mpr ⟨by decide, by decide⟩
  exact ⟨hok, (h.2.1 hok).1, (h.2.1 hok).2⟩

/-! ### Claims C5 and C9 -/

/-- C5: `is_expired(e, now)` is false when `expires_at` is absent; when it
is present and parses in the stored format `%Y-%m-%d %H:%M:%S`, it is true
exactly when the expiry instant is at or before `now` (second-precision,
compared via the chronological key `dtKey`). -/
theorem C5_is_expired_contract (e : Entry) (now : DateTime) :
    (e.expires_at = none → is_expired e now = false)
    ∧ (∀ s dt, e.expires_at = some s → parseDateTime s = some dt →
        (is_expired e now = true ↔ dtKey dt ≤ dtKey now)) := by
  constructor
  · intro h
    simp [is_expired, h]
  · intro s dt hs hdt
    have hse : s ≠ "" := by
      intro h
      rw [h] at hdt
      exact Option.noConfusion ((rfl : parseDateTime "" = none) ▸ hdt)
    simp [is_expired, hs, if_neg hse, hdt]

/-- Witness for C5: an entry expiring 2025-01-02 03:04:05 compared at
2025-06-01 12:00:00. -/
theorem C5_is_expired_witness :
    is_expired entryExpired nowEx = true ↔ dtKey ⟨2025, 1, 2, 3, 4, 5⟩ ≤ dtKey nowEx :=
  (C5_is_expired_contract entryExpired nowEx).2 "2025-01-02 03:04:05"
    ⟨2025, 1, 2, 3, 4, 5⟩ (by decide) (by decide)

/-- C9: expiry is monotone in time: if an entry is expired at `t` it stays
expired at every later instant `t'`. -/
theorem C9_expiry_monotone (e : Entry) (t t' : DateTime)
    (h1 : is_expired e t = true) (h2 : dtKey t < dtKey t') :
    is_expired e t' = true := by
  cases hs : e.expires_at with
  | none => simp [is_expired, hs] at h1
  | some s =>
    by_cases hse : s = ""
    · simp [is_expired, hs, hse] at h1
    · cases hp : parseDateTime s with
      | none => simp [is_expired, hs, hse, hp] at h1
      | some dt =>
        simp only [is_expired, hs, if_neg hse, hp, decide_eq_true_eq] at h1 ⊢
        exact le_trans h1 (le_of_lt h2)

/-- Witness for C9: the entry expired at 2025-06-01 12:00:00 is still
expired one hour later. -/
theorem C9_expiry_monotone_witness :
    is_expired entryExpired ⟨2025, 6, 1, 13, 0, 0⟩ = true :=
  C9_expiry_monotone entryExpired nowEx ⟨2025, 6, 1, 13, 0, 0⟩ (by decide) (by decide)

/-! ### Claim C1 -/

/-- C1 (amended): if no entry exists for the code, or the entry is expired
at request time, the request terminates with the NotFound rejection and the
entire user-visible result is identical in the absent and expired cases; if
the entry is live, `locked_to` is set to a nonzero id, and the requester is
unknown or differs from it, the request terminates with the Locked
rejection, whose user-visible message is distinct from NotFound. -/
theorem C1_retrieval_rejections (st : DB) (requester : Option Int)
    (now : DateTime) (code : String) (send : SendMethod → Bool) (copyOk : Bool) :
    (get_code st code = none →
      handle_retrieval st requester now code send copyOk
        = ⟨.rejected notFoundMsg, st, false, false⟩)
    ∧ (∀ e, get_code st code = some e → is_expired e now = true →
      handle_retrieval st requester now code send copyOk
        = ⟨.rejected notFoundMsg, st, false, false⟩)
    ∧ (∀ e l, get_code st code = some e → is_expired e now = false →
        e.locked_to = some l → l ≠ 0 → (∀ r, requester = some r → r ≠ l) →
        handle_retrieval st requester now code send copyOk
          = ⟨.rejected lockedMsg, st, false, false⟩)
    ∧ lockedMsg ≠ notFoundMsg := by
  refine ⟨?_, ?_, ?_, by decide⟩
  · intro h
    simp [handle_retrieval, h]
  · intro e he hexp
    simp [handle_retrieval, he, hexp]
  · intro e l he hexp hl hlz hr
    have hlock : lockRejects e.locked_to requester = true := by
      rw [hl]
      simp only [lockRejects]
      rw [if_neg hlz]
      cases requester with
      | none => rfl
      | some r => simp [hr r rfl]
    simp [handle_retrieval, he, hexp, hlock]

/-- Witness for C1: a known requester 5 asking for an entry locked to 7
receives the Locked rejection and the state is unchanged. -/
theorem C1_retrieval_witness :
    handle_retrieval ⟨[("c1", entryLocked7)], []⟩ (some 5) nowEx "c1"
        (fun _ => true) true
      = ⟨.rejected lockedMsg, ⟨[("c1", entryLocked7)], []⟩, false, false⟩ := by
  have h := C1_retrieval_rejections ⟨[("c1", entryLocked7)], []⟩ (some 5) nowEx
    "c1" (fun _ => true) true
  exact h.2.2.1 entryLocked7 7 (by decide) (by decide) rfl (by decide)
    (by intro r hr; cases hr; decide)

/-- C1 counterexample: the lock check is a Python truthiness test, so an
entry whose `locked_to` field is set to 0 is not protected — a known
requester with a different id (here 5) gets the file delivered instead of
the Locked rejection, refuting the claim as stated. -/
theorem C1_counterexample :
    entryLocked0.locked_to = some 0
    ∧ (handle_retrieval ⟨[("c1", entryLocked0)], []⟩ (some 5) nowEx "c1"
        (fun _ => true) true).outcome = Outcome.done := by
  exact ⟨rfl, rfl⟩

/-! ### Claim C2 -/

/-- C2: for a request that passes the lookup, expiry and lock checks, with
the two transport calls modeled as pure results: the primary delivery is
attempted, the fallback is attempted iff the primary failed, on any
successful delivery the requester's retrieved counter is incremented by
exactly 1 (all other counters and the code mapping untouched) and the
request terminates Done, and if both deliveries fail the request terminates
with the SendFailed rejection with the state unchanged.  Unknown file kinds
dispatch via the document path. -/
theorem C2_send_and_counters (st : DB) (requester : Option Int)
    (now : DateTime) (code : String) (send : SendMethod → Bool) (copyOk : Bool)
    (e : Entry) (he : get_code st code = some e)
    (hexp : is_expired e now = false)
    (hlock : lockRejects e.locked_to requester = false) :
    ((handle_retrieval st requester now code send copyOk).primaryAttempted = true
     ∧ ((handle_retrieval st requester now code send copyOk).fallbackAttempted = true
        ↔ send (methodFor e.file_type) = false)
     ∧ ((send (methodFor e.file_type) = true ∨ copyOk = true) →
         (handle_retrieval st requester now code send copyOk).outcome = .done
         ∧ (handle_retrieval st requester now code send copyOk).db.codes = st.codes
         ∧ retrievedCount (handle_retrieval st requester now code send copyOk).db
             (requester.getD 0)
           = retrievedCount st (requester.getD 0) + 1
         ∧ ∀ v, v ≠ requester.getD 0 →
             lookupUser (handle_retrieval st requester now code send copyOk).db.users v
               = lookupUser st.users v)
     ∧ ((send (methodFor e.file_type) = false ∧ copyOk = false) →
         (handle_retrieval st requester now code send copyOk).outcome
             = .rejected sendFailedMsg
         ∧ (handle_retrieval st requester now code send copyOk).db = st))
    ∧ (∀ ft, ft ∉ (["photo", "video", "document", "audio", "voice",
          "animation", "sticker"] : List String) → methodFor ft = .document) := by
  constructor
  · by_cases hsend : send (methodFor e.file_type) = true
    · have hR : handle_retrieval st requester now code send copyOk
          = ⟨.done, inc_retrieved st (requester.getD 0), true, false⟩ := by
        simp only [handle_retrieval, he, hexp, hlock, hsend, Bool.false_eq_true,
          if_true, if_false]
      refine ⟨by rw [hR], by rw [hR]; simp [hsend], ?_, ?_⟩
      · intro _
        rw [hR]
        exact ⟨rfl, inc_retrieved_codes st _, retrievedCount_inc_self st _,
          fun v hv => lookupUser_inc_other st _ v hv⟩
      · rintro ⟨h1, -⟩
        rw [hsend] at h1
        exact Bool.noConfusion h1
    · have hsend' : send (methodFor e.file_type) = false := by
        cases h : send (methodFor e.file_type) with
        | false => rfl
        | true => exact absurd h hsend
      by_cases hcopy : copyOk = true
      · have hR : handle_retrieval st requester now code send copyOk
            = ⟨.done, inc_retrieved st (requester.getD 0), true, true⟩ := by
          simp only [handle_retrieval, he, hexp, hlock, hsend', hcopy,
            Bool.false_eq_true, if_true, if_false]
        refine ⟨by rw [hR], by rw [hR]; simp [hsend'], ?_, ?_⟩
        · intro _
          rw [hR]
          exact ⟨rfl, inc_retrieved_codes st _, retrievedCount_inc_self st _,
            fun v hv => lookupUser_inc_other st _ v hv⟩
        · rintro ⟨-, h2⟩
          rw [hcopy] at h2
          exact Bool.noConfusion h2
      · have hcopy' : copyOk = false := by
          cases h : copyOk with
          | false => rfl
          | true => exact absurd h hcopy
        have hR : handle_retrieval st requester now code send copyOk
            = ⟨.rejected sendFailedMsg, st, true, true⟩ := by
          simp only [handle_retrieval, he, hexp, hlock, hsend', hcopy',
            Bool.false_eq_true, if_true, if_false]
        refine ⟨by rw [hR], by rw [hR]; simp [hsend'], ?_, ?_⟩
        · rintro (h1 | h2)
          · rw [hsend'] at h1
            exact Bool.noConfusion h1
          · rw [hcopy'] at h2
            exact Bool.noConfusion h2
        · intro _
          rw [hR]
          exact ⟨rfl, rfl⟩
  · intro ft hft
    simp only [List.mem_cons, List.not_mem_nil, or_false, not_or] at hft
    obtain ⟨h1, h2, h3, h4, h5, h6, h7⟩ := hft
    simp [methodFor, h1, h2, h3, h4, h5, h6, h7]

/-- Witness for C2: with the primary send failing and the storage copy
succeeding, the fallback is attempted, the request is Done, and requester
5's retrieved counter goes up by one. -/
theorem C2_send_witness :
    (handle_retrieval ⟨[("c2", entryBase)], []⟩ (some 5) nowEx "c2"
        (fun _ => false) true).fallbackAttempted = true
    ∧ (handle_retrieval ⟨[("c2", entryBase)], []⟩ (some 5) nowEx "c2"
        (fun _ => false) true).outcome = .done
    ∧ retrievedCount (handle_retrieval ⟨[("c2", entryBase)], []⟩ (some 5) nowEx "c2"
        (fun _ => false) true).db 5
      = retrievedCount ⟨[("c2", entryBase)], []⟩ 5 + 1 := by
  have h := C2_send_and_counters ⟨[("c2", entryBase)], []⟩ (some 5) nowEx "c2"
    (fun _ => false) true entryBase rfl (by decide) (by decide)
  have hs := h.1.2.2.1 (Or.inr rfl)
  exact ⟨(h.1.2.1).mpr rfl, hs.1, hs.2.2.1⟩

/-! ### Claim C6 -/

theorem purgeOld_eq_filter (now window : Int) (s : List Int)
    (hs : List.Sorted (· ≤ ·) s) :
    purgeOld now window s = s.filter (fun t => decide (now - window ≤ t)) := by
  induction s with
  | nil => rfl
  | cons t rest ih =>
    rw [List.sorted_cons] at hs
    obtain ⟨hall, hrest⟩ := hs
    by_cases h : now - t > window
    · have ht : ¬ (now - window ≤ t) := by omega
      rw [List.filter_cons]
      rw [if_neg (by simpa using ht)]
      simp only [purgeOld, if_pos h]
      exact ih hrest
    · have ht : now - window ≤ t := by omega
      rw [List.filter_cons]
      rw [if_pos (by simpa using ht)]
      simp only [purgeOld, if_neg h]
      rw [List.filter_eq_self.mpr]
      intro x hx
      have : t ≤ x := hall x hx
      simp only [decide_eq_true_eq]
      omega

/-- C6: with window 10 s and maximum 3, attempts at t = 0, 1, 2 are
accepted, a fourth at t = 3 is rejected without state change, and an
attempt at t = 11 is accepted after the first timestamp leaves the window;
in general each attempt first evicts from the front every timestamp older
than T - window (a prefix trim that equals a filter on the time-ordered
sequence), rejects without appending when at least the maximum remain, and
otherwise appends T and accepts. -/
theorem C6_rate_limiter :
    (check_rate_limit RATE_LIMIT_MAX_FILES RATE_LIMIT_WINDOW_SEC 0 [] = (true, [0])
     ∧ check_rate_limit RATE_LIMIT_MAX_FILES RATE_LIMIT_WINDOW_SEC 1 [0]
         = (true, [0, 1])
     ∧ check_rate_limit RATE_LIMIT_MAX_FILES RATE_LIMIT_WINDOW_SEC 2 [0, 1]
         = (true, [0, 1, 2])
     ∧ check_rate_limit RATE_LIMIT_MAX_FILES RATE_LIMIT_WINDOW_SEC 3 [0, 1, 2]
         = (false, [0, 1, 2])
     ∧ check_rate_limit RATE_LIMIT_MAX_FILES RATE_LIMIT_WINDOW_SEC 11 [0, 1, 2]
         = (true, [1, 2, 11]))
    ∧ ∀ (maxFiles : Nat) (window T : Int) (s : List Int),
        List.Sorted (· ≤ ·) s →
        purgeOld T window s = s.filter (fun ts => decide (T - window ≤ ts))
        ∧ check_rate_limit maxFiles window T s
            = (if maxFiles ≤ (s.filter (fun ts => decide (T - window ≤ ts))).length
               then (false, s.filter (fun ts => decide (T - window ≤ ts)))
               else (true, s.filter (fun ts => decide (T - window ≤ ts)) ++ [T])) := by
  refine ⟨by decide, ?_⟩
  intro maxFiles window T s hs
  have hp := purgeOld_eq_filter T window s hs
  exact ⟨hp, by simp only [check_rate_limit, hp]⟩

/-- Witness for C6 at the t = 11 step on the time-ordered state [0, 1, 2]. -/
theorem C6_rate_limiter_witness :
    check_rate_limit 3 10 11 [0, 1, 2] = (true, [1, 2, 11]) := by
  have h := C6_rate_limiter.2 3 10 11 [0, 1, 2] (by decide)
  rw [h.2]
  decide

/-! ### Claim C10 -/

theorem sweep_preserves_unexpired (now : DateTime) (keys : List String)
    (acc : DB) (c : String) (e : Entry)
    (hc : get_code acc c = some e) (hne : is_expired e now = false) :
    get_code (keys.foldl (sweepStep now) acc) c = some e := by
  induction keys generalizing acc with
  | nil => exact hc
  | cons k rest ih =>
    rw [List.foldl_cons]
    apply ih
    unfold sweepStep
    cases hk : get_code acc k with
    | none => exact hc
    | some e' =>
      dsimp only
      by_cases hexp : is_expired e' now
      · rw [if_pos hexp]
        by_cases hkc : k = c
        · subst hkc
          rw [hc] at hk
          injection hk with h
          rw [← h, hne] at hexp
          exact Bool.noConfusion hexp
        · unfold delete_code get_code
          rw [lookupCode_filter_other acc.codes k c (fun hh => hkc hh.symm)]
          exact hc
      · rw [if_neg hexp]
        exact hc

/-- C10: an entry whose `expires_at` field is present but is not a string
accepted by the `%Y-%m-%d %H:%M:%S` parse behaves as never-expiring:
`is_expired` is false at every instant, retrieval never rejects it with the
NotFound message, and neither the background sweeper nor the admin cleanup
(both run `sweepExpired`) ever evicts it. -/
theorem C10_malformed_never_expires (st : DB) (c : String) (e : Entry)
    (s : String) (now : DateTime)
    (he : get_code st c = some e) (hs : e.expires_at = some s)
    (hp : parseDateTime s = none) :
    is_expired e now = false
    ∧ get_code (sweepExpired st now) c = some e
    ∧ (∀ requester send copyOk,
        (handle_retrieval st requester now c send copyOk).outcome
          ≠ Outcome.rejected notFoundMsg) := by
  have hne : is_expired e now = false := by
    unfold is_expired
    rw [hs]
    dsimp only
    by_cases hse : s = ""
    · rw [if_pos hse]
    · rw [if_neg hse, hp]
  refine ⟨hne, ?_, ?_⟩
  · exact sweep_preserves_unexpired now _ st c e he hne
  · intro requester send copyOk
    simp only [handle_retrieval, he, hne, Bool.false_eq_true, if_false]
    by_cases hlock : lockRejects e.locked_to requester
    · simp only [hlock, if_true]
      intro hcontra
      injection hcontra with h
      exact absurd h (by decide)
    · simp only [Bool.not_eq_true] at hlock
      simp only [hlock, Bool.false_eq_true, if_false]
      by_cases hsend : send (methodFor e.file_type)
      · simp only [hsend, if_true]
        intro hcontra
        exact Outcome.noConfusion hcontra
      · simp only [Bool.not_eq_true] at hsend
        simp only [hsend, Bool.false_eq_true, if_false]
        by_cases hcopy : copyOk
        · simp only [hcopy, if_true]
          intro hcontra
          exact Outcome.noConfusion hcontra
        · simp only [Bool.not_eq_true] at hcopy
          simp only [hcopy, Bool.false_eq_true, if_false]
          intro hcontra
          injection hcontra with h
          exact absurd h (by decide)

/-- Witness for C10: the entry with `expires_at = "tomorrow-ish"` is not
expired at the reference instant and survives a sweep. -/
theorem C10_malformed_witness :
    is_expired entryBadTs nowEx = false
    ∧ get_code (sweepExpired ⟨[("cx", entryBadTs)], []⟩ nowEx) "cx" = some entryBadTs := by
  have h := C10_malformed_never_expires ⟨[("cx", entryBadTs)], []⟩ "cx" entryBadTs
    "tomorrow-ish" nowEx rfl rfl (by decide)
  exact ⟨h.1, h.2.1⟩

/-! ### Claim C8 -/

theorem get_code_update (st : DB) (code c : String) (f : Entry → Entry) :
    get_code (update_code st code f) c
      = if c = code then (get_code st c).map f else get_code st c := by
  unfold update_code get_code
  by_cases hpres : (lookupCode st.codes code).isSome
  · rw [if_pos hpres]
    exact lookupCode_mapAtCode st.codes code c f
  · rw [if_neg hpres]
    by_cases hc : c = code
    · subst hc
      have hn : lookupCode st.codes c = none := by
        cases h : lookupCode st.codes c with
        | none => rfl
        | some x => exact absurd (by simp [h]) hpres
      rw [if_pos rfl, hn]
      rfl
    · rw [if_neg hc]

theorem get_code_delete (st : DB) (code c : String) :
    get_code (delete_code st code) c = if c = code then none else get_code st c := by
  unfold delete_code get_code
  by_cases hc : c = code
  · subst hc
    rw [if_pos rfl]
    exact lookupCode_filter_self st.codes c
  · rw [if_neg hc]
    exact lookupCode_filter_other st.codes code c hc

theorem get_code_put (st : DB) (code c : String) (e : Entry) :
    get_code (put_code st code e) c = if c = code then some e else get_code st c :=
  lookupCode_dictSet st.codes code e c

theorem rename_fail_state (st : DB) (old new : String)
    (h : (rename_code st old new).1 = false) : (rename_code st old new).2 = st := by
  unfold rename_code at h ⊢
  cases hold : lookupCode st.codes old with
  | none => rfl
  | some e =>
    rw [hold] at h
    dsimp only at h ⊢
    by_cases hn : (lookupCode st.codes new).isSome
    · rw [if_pos hn]
    · rw [if_neg hn] at h
      exact absurd h (by simp)

theorem rename_success_gets (st : DB) (old new : String)
    (h : (rename_code st old new).1 = true) :
    old ≠ new
    ∧ get_code st new = none
    ∧ get_code (rename_code st old new).2 new = get_code st old
    ∧ get_code (rename_code st old new).2 old = none
    ∧ ∀ c, c ≠ old → c ≠ new →
        get_code (rename_code st old new).2 c = get_code st c := by
  unfold rename_code at h ⊢
  cases hold : lookupCode st.codes old with
  | none =>
    rw [hold] at h
    exact absurd h (by simp)
  | some e =>
    rw [hold] at h
    dsimp only at h ⊢
    by_cases hn : (lookupCode st.codes new).isSome
    · rw [if_pos hn] at h
      exact absurd h (by simp)
    · have hnone : lookupCode st.codes new = none := by
        cases hh : lookupCode st.codes new with
        | none => rfl
        | some x => exact absurd (by simp [hh]) hn
      have hne : old ≠ new := by
        intro hh
        rw [hh, hnone] at hold
        exact Option.noConfusion hold
      rw [if_neg hn]
      refine ⟨hne, hnone, ?_, ?_, ?_⟩
      · unfold get_code
        dsimp only
        rw [hold, lookupCode_append_none _ _ _
          (by rw [lookupCode_filter_other st.codes old new (Ne.symm hne)]; exact hnone)]
        simp [lookupCode]
      · unfold get_code
        dsimp only
        rw [lookupCode_append_none _ _ _ (lookupCode_filter_self st.codes old)]
        simp only [lookupCode]
        rw [if_neg (Ne.symm hne)]
      · intro c hco hcn
        unfold get_code
        dsimp only
        cases h' : lookupCode st.codes c with
        | some x =>
          rw [lookupCode_append_some _ _ _ _
            (by rw [lookupCode_filter_other st.codes old c hco]; exact h')]
        | none =>
          rw [lookupCode_append_none _ _ _
            (by rw [lookupCode_filter_other st.codes old c hco]; exact h')]
          simp only [lookupCode]
          rw [if_neg (Ne.symm hcn)]

theorem trackStep_preserves (u0 : Int) (st : DB) (op : SysOp) (t : Option String)
    (hinv : ∀ c, t = some c → ∃ e, get_code st c = some e ∧ e.uploader = u0) :
    ∀ c, trackStep st op t = some c →
      ∃ e, get_code (applyOp st op) c = some e ∧ e.uploader = u0 := by
  intro c htc
  cases t with
  | none => simp [trackStep] at htc
  | some c0 =>
    obtain ⟨e0, he0, hu0⟩ := hinv c0 rfl
    cases op with
    | lock code uid =>
      simp only [trackStep] at htc
      injection htc with hcc
      subst hcc
      simp only [applyOp]
      rw [get_code_update]
      by_cases hc : c0 = code
      · rw [if_pos hc, he0]
        exact ⟨_, rfl, hu0⟩
      · rw [if_neg hc]
        exact ⟨e0, he0, hu0⟩
    | expireSet code ts =>
      simp only [trackStep] at htc
      injection htc with hcc
      subst hcc
      simp only [applyOp]
      rw [get_code_update]
      by_cases hc : c0 = code
      · rw [if_pos hc, he0]
        exact ⟨_, rfl, hu0⟩
      · rw [if_neg hc]
        exact ⟨e0, he0, hu0⟩
    | expireClear code =>
      simp only [trackStep] at htc
      injection htc with hcc
      subst hcc
      simp only [applyOp]
      rw [get_code_update]
      by_cases hc : c0 = code
      · rw [if_pos hc, he0]
        exact ⟨_, rfl, hu0⟩
      · rw [if_neg hc]
        exact ⟨e0, he0, hu0⟩
    | deleteOp c' =>
      simp only [trackStep] at htc
      by_cases hdc : c' = c0
      · rw [if_pos hdc] at htc
        exact Option.noConfusion htc
      · rw [if_neg hdc] at htc
        injection htc with hcc
        subst hcc
        simp only [applyOp]
        rw [get_code_delete, if_neg (fun hh => hdc hh.symm)]
        exact ⟨e0, he0, hu0⟩
    | renameOp old new =>
      simp only [trackStep] at htc
      by_cases hcond : old = c0 ∧ (rename_code st old new).1 = true
      · rw [if_pos hcond] at htc
        injection htc with hcc
        subst hcc
        obtain ⟨holdc, hsucc⟩ := hcond
        subst holdc
        have hr := rename_success_gets st old new hsucc
        simp only [applyOp]
        rw [hr.2.2.1, he0]
        exact ⟨e0, rfl, hu0⟩
      · rw [if_neg hcond] at htc
        injection htc with hcc
        subst hcc
        simp only [applyOp]
        by_cases hsucc : (rename_code st old new).1 = true
        · have holdne : old ≠ c0 := fun hh => hcond ⟨hh, hsucc⟩
          have hr := rename_success_gets st old new hsucc
          have hcn : c0 ≠ new := by
            intro hh
            rw [hh, hr.2.1] at he0
            exact Option.noConfusion he0
          rw [hr.2.2.2.2 c0 (fun hh => holdne hh.symm) hcn]
          exact ⟨e0, he0, hu0⟩
        · have hfail : (rename_code st old new).1 = false := by
            cases hb : (rename_code st old new).1 with
            | false => rfl
            | true => exact absurd hb hsucc
          rw [rename_fail_state st old new hfail]
          exact ⟨e0, he0, hu0⟩
    | sweep nw =>
      simp only [trackStep] at htc
      rw [he0] at htc
      dsimp only at htc
      by_cases hexp : is_expired e0 nw
      · rw [if_pos hexp] at htc
        exact Option.noConfusion htc
      · rw [if_neg hexp] at htc
        injection htc with hcc
        subst hcc
        have hexp' : is_expired e0 nw = false := by
          cases hb : is_expired e0 nw with
          | false => rfl
          | true => exact absurd hb hexp
        simp only [applyOp, sweepExpired]
        exact ⟨e0, sweep_preserves_unexpired nw _ st c0 e0 he0 hexp', hu0⟩
    | create code e =>
      simp only [trackStep] at htc
      injection htc with hcc
      subst hcc
      simp only [applyOp]
      by_cases hhas : has_code st code
      · rw [if_pos hhas]
        exact ⟨e0, he0, hu0⟩
      · rw [if_neg hhas]
        have hcc0 : c0 ≠ code := by
          intro hh
          apply hhas
          unfold has_code
          rw [← hh]
          unfold get_code at he0
          rw [he0]
          rfl
        rw [get_code_put, if_neg hcc0]
        exact ⟨e0, he0, hu0⟩

/-- C8: for every live entry and every sequence of the system operations
the command surface and the sweeper can perform after its creation (lock,
rename, set/clear expiry, delete, sweep, creation of entries at fresh
codes), whenever the entry is still present — possibly under a renamed
code — its `uploader` field equals the uploader recorded at creation. -/
theorem C8_uploader_immutable (ops : List SysOp) (st0 : DB) (c0 : String)
    (e0 : Entry) (h0 : get_code st0 c0 = some e0) :
    ∀ c, (runTrace ops (st0, some c0)).2 = some c →
      ∃ e, get_code (runTrace ops (st0, some c0)).1 c = some e
        ∧ e.uploader = e0.uploader := by
  have main : ∀ (l : List SysOp) (st : DB) (t : Option String),
      (∀ c, t = some c → ∃ e, get_code st c = some e ∧ e.uploader = e0.uploader) →
      ∀ c, (runTrace l (st, t)).2 = some c →
        ∃ e, get_code (runTrace l (st, t)).1 c = some e
          ∧ e.uploader = e0.uploader := by
    intro l
    induction l with
    | nil =>
      intro st t hinv c htc
      exact hinv c htc
    | cons op rest ih =>
      intro st t hinv c htc
      rw [runTrace, List.foldl_cons] at htc ⊢
      exact ih (applyOp st op) (trackStep st op t)
        (trackStep_preserves e0.uploader st op t hinv) c htc
  exact main ops st0 (some c0)
    (fun c hc => by
      injection hc with h
      exact ⟨e0, h ▸ h0, rfl⟩)

/-- Witness for C8: an entry uploaded by 42 keeps uploader 42 after being
locked, renamed from "aa" to "bb", and given an expiry. -/
theorem C8_uploader_witness :
    ∃ e, get_code (runTrace [SysOp.lock "aa" 7, SysOp.renameOp "aa" "bb",
        SysOp.expireSet "bb" "2030-01-01 00:00:00"] (⟨[("aa", entryBase)], []⟩, some "aa")).1
        "bb" = some e
      ∧ e.uploader = entryBase.uploader := by
  have h := C8_uploader_immutable [SysOp.lock "aa" 7, SysOp.renameOp "aa" "bb",
    SysOp.expireSet "bb" "2030-01-01 00:00:00"] ⟨[("aa", entryBase)], []⟩ "aa"
    entryBase rfl
  exact h "bb" (by decide)

/-! ### Claim C7 -/

theorem charsLe_total : ∀ x y : List Char, charsLe x y = true ∨ charsLe y x = true := by
  intro x
  induction x with
  | nil =>
    intro y
    left
    rfl
  | cons a as ih =>
    intro y
    cases y with
    | nil =>
      right
      rfl
    | cons b bs =>
      by_cases hab : a = b
      · subst hab
        simp only [charsLe, if_pos rfl]
        exact ih bs
      · have hba : ¬ b = a := fun h => hab h.symm
        simp only [charsLe, if_neg hab, if_neg hba]
        rcases lt_trichotomy a b with h | h | h
        · left
          exact decide_eq_true h
        · exact absurd h hab
        · right
          exact decide_eq_true h

theorem charsLe_trans : ∀ x y z : List Char, charsLe x y = true →
    charsLe y z = true → charsLe x z = true := by
  intro x
  induction x with
  | nil =>
    intro y z hxy hyz
    rfl
  | cons a as ih =>
    intro y z hxy hyz
    cases y with
    | nil => exact absurd hxy (by simp [charsLe])
    | cons b bs =>
      cases z with
      | nil => exact absurd hyz (by simp [charsLe])
      | cons c cs =>
        simp only [charsLe] at hxy hyz ⊢
        by_cases hab : a = b
        · subst hab
          rw [if_pos rfl] at hxy
          by_cases hac : a = c
          · subst hac
            rw [if_pos rfl] at hyz ⊢
            exact ih bs cs hxy hyz
          · rw [if_neg hac] at hyz ⊢
            exact hyz
        · rw [if_neg hab] at hxy
          have hlt1 : a < b := of_decide_eq_true hxy
          by_cases hbc : b = c
          · subst hbc
            rw [if_neg hab]
            exact hxy
          · have hlt2 : b < c := of_decide_eq_true (by rw [if_neg hbc] at hyz; exact hyz)
            have hac : a < c := lt_trans hlt1 hlt2
            rw [if_neg (ne_of_lt hac)]
            exact decide_eq_true hac

theorem uploadedDesc_total : ∀ a b : String × Entry,
    uploadedDesc a b ∨ uploadedDesc b a := by
  intro a b
  exact (charsLe_total b.2.uploaded_at.toList a.2.uploaded_at.toList).imp id id

theorem uploadedDesc_trans : ∀ a b c : String × Entry,
    uploadedDesc a b → uploadedDesc b c → uploadedDesc a c := by
  intro a b c h1 h2
  exact charsLe_trans c.2.uploaded_at.toList b.2.uploaded_at.toList
    a.2.uploaded_at.toList h2 h1

/-- C7 (amended): `search_codes` returns exactly the entries whose
space-separated join of {code, file_kind, file_name, caption, mime_type}
(absent fields contributing the empty string) contains the keyword
case-insensitively, sorted by `uploaded_at` descending and truncated to the
limit; a keyword present only in a caption in differing case matches, and a
keyword present in no field yields the empty list rather than an error. -/
theorem C7_search_contract :
    (∀ (st : DB) (query : String) (limit : Nat),
      (∀ p, p ∈ search_codes st query limit →
        p ∈ st.codes ∧ searchHit (query.toList.map pyLower) p = true)
      ∧ (∃ l, l.Perm (st.codes.filter (searchHit (query.toList.map pyLower)))
          ∧ List.Sorted uploadedDesc l
          ∧ search_codes st query limit = l.take limit))
    ∧ search_codes ⟨[("aa", entryBase), ("cc", entryCaption)], []⟩ "WORLD" 50
        = [("cc", entryCaption)]
    ∧ search_codes ⟨[("aa", entryBase), ("cc", entryCaption)], []⟩ "zzz" 50 = [] := by
  refine ⟨?_, by decide, by decide⟩
  intro st query limit
  constructor
  · intro p hp
    unfold search_codes at hp
    have h1 : p ∈ List.insertionSort uploadedDesc
        (st.codes.filter (searchHit (query.toList.map pyLower))) :=
      List.take_subset _ _ hp
    have h2 := (List.mem_insertionSort uploadedDesc).mp h1
    exact List.mem_filter.mp h2
  · refine ⟨List.insertionSort uploadedDesc
      (st.codes.filter (searchHit (query.toList.map pyLower))), ?_, ?_, rfl⟩
    · exact List.perm_insertionSort uploadedDesc _
    · exact @List.sorted_insertionSort _ uploadedDesc _
        ⟨uploadedDesc_total⟩ ⟨uploadedDesc_trans⟩ _

/-- Witness for C7: the entry found by the mixed-case caption search is in
the registry and matches the lowercased keyword. -/
theorem C7_search_witness :
    ("cc", entryCaption) ∈ (⟨[("aa", entryBase), ("cc", entryCaption)], []⟩ : DB).codes
    ∧ searchHit ("WORLD".toList.map pyLower) ("cc", entryCaption) = true := by
  have h := C7_search_contract.1 ⟨[("aa", entryBase), ("cc", entryCaption)], []⟩
    "WORLD" 50
  exact h.1 ("cc", entryCaption) (by decide)

/-- C7 counterexample: the code joins the five fields with single spaces,
not by plain concatenation: for the entry with code "ab" and file kind
"cd", the keyword "bc" is a substring of the claim's concatenation
"abcd" yet the search returns nothing, refuting the claim as stated. -/
theorem C7_counterexample :
    concatHitClaim ("bc".toList.map pyLower) ("ab", entryCd) = true
    ∧ search_codes ⟨[("ab", entryCd)], []⟩ "bc" 50 = [] := by
  decide

/-! ### Claim C4 -/

theorem digit_pyLower : ∀ c ∈ digitChars, pyLower c = c := by decide

theorem digit_not_space : ∀ c ∈ digitChars, pyIsSpace c = false := by decide

theorem digit_isDigit : ∀ c ∈ digitChars, c.isDigit = true := by decide

theorem digit_ne : ∀ c ∈ digitChars, c ≠ '+' ∧ c ≠ '-' ∧ c ≠ '_' ∧ c ≠ 'n'
    ∧ c ≠ 'd' ∧ c ≠ 'h' ∧ c ≠ 'm' := by decide

theorem dropWhile_eq_self_of_all (p : Char → Bool) :
    ∀ cs : List Char, (∀ c ∈ cs, p c = false) → cs.dropWhile p = cs
  | [], _ => rfl
  | a :: l, h => by
    rw [List.dropWhile_cons, if_neg (by simp [h a (List.mem_cons_self a l)])]

theorem stripSpaces_eq_self (cs : List Char)
    (h : ∀ c ∈ cs, pyIsSpace c = false) : stripSpaces cs = cs := by
  unfold stripSpaces
  rw [dropWhile_eq_self_of_all pyIsSpace cs h,
    dropWhile_eq_self_of_all pyIsSpace cs.reverse
      (fun c hc => h c (List.mem_reverse.mp hc)),
    List.reverse_reverse]

theorem map_pyLower_eq_self : ∀ cs : List Char,
    (∀ c ∈ cs, pyLower c = c) → cs.map pyLower = cs
  | [], _ => rfl
  | a :: l, h => by
    rw [List.map_cons, h a (List.mem_cons_self a l),
      map_pyLower_eq_self l (fun c hc => h c (List.mem_cons_of_mem a hc))]

theorem pyDigitsTail_digits : ∀ ds : List Char,
    (∀ c ∈ ds, c ∈ digitChars) → pyDigitsTail ds = true
  | [], _ => rfl
  | c :: rest, h => by
    have hc := digit_ne c (h c (List.mem_cons_self c rest))
    rw [pyDigitsTail.eq_def]
    dsimp only
    rw [if_neg hc.2.2.1,
      digit_isDigit c (h c (List.mem_cons_self c rest)),
      pyDigitsTail_digits rest (fun x hx => h x (List.mem_cons_of_mem c hx))]
    rfl

theorem pyDigits_digits (ds : List Char) (hne : ds ≠ [])
    (h : ∀ c ∈ ds, c ∈ digitChars) : pyDigits ds = true := by
  cases ds with
  | nil => exact absurd rfl hne
  | cons d rest =>
    rw [pyDigits, digit_isDigit d (h d (List.mem_cons_self d rest)),
      pyDigitsTail_digits rest (fun x hx => h x (List.mem_cons_of_mem d hx))]
    rfl

theorem filter_underscore_digits (ds : List Char)
    (h : ∀ c ∈ ds, c ∈ digitChars) : ds.filter (· ≠ '_') = ds := by
  rw [List.filter_eq_self]
  intro c hc
  have := (digit_ne c (h c hc)).2.2.1
  simp [this]

theorem pyIntOfChars_digits (ds : List Char) (hne : ds ≠ [])
    (h : ∀ c ∈ ds, c ∈ digitChars) :
    pyIntOfChars ds = some (Int.ofNat (digitsToNat ds)) := by
  unfold pyIntOfChars
  rw [stripSpaces_eq_self ds (fun c hc => digit_not_space c (h c hc))]
  cases ds with
  | nil => exact absurd rfl hne
  | cons d rest =>
    have hd := digit_ne d (h d (List.mem_cons_self d rest))
    dsimp only
    rw [if_neg hd.1, if_neg hd.2.1,
      if_pos (pyDigits_digits (d :: rest) (List.cons_ne_nil d rest) h),
      filter_underscore_digits (d :: rest) h]

theorem pyIntOfChars_neg_digits (ds : List Char) (hne : ds ≠ [])
    (h : ∀ c ∈ ds, c ∈ digitChars) :
    pyIntOfChars ('-' :: ds) = some (-Int.ofNat (digitsToNat ds)) := by
  unfold pyIntOfChars
  rw [stripSpaces_eq_self ('-' :: ds) ?_]
  · dsimp only
    rw [if_neg (by decide), if_pos rfl,
      if_pos (pyDigits_digits ds hne h), filter_underscore_digits ds h]
  · intro c hc
    rcases List.mem_cons.mp hc with hh | hh
    · subst hh
      rfl
    · exact digit_not_space c (h c hh)

theorem isNeverWord_head (d : Char) (l : List Char) (hd : d ≠ 'n') :
    isNeverWord (d :: l) = false := by
  simp only [isNeverWord, Bool.or_eq_false_iff, decide_eq_false_iff_not]
  refine ⟨⟨⟨⟨?_, ?_⟩, ?_⟩, ?_⟩, List.cons_ne_nil d l⟩
  · intro hh
    injection hh with h1 _
    exact hd h1
  · intro hh
    injection hh with h1 _
    exact hd h1
  · intro hh
    injection hh with h1 _
    exact hd h1
  · intro hh
    injection hh with h1 _
    exact hd h1

theorem ne_delete_head (d : Char) (l : List Char) (hd : d ≠ 'd') :
    ¬ (d :: l) = "delete".toList := by
  intro hh
  injection hh with h1 _
  exact hd h1

theorem parse_expiry_concat (now : Int) (ds : List Char) (suf : Char)
    (hne : ds ≠ []) (h : ∀ c ∈ ds, c ∈ digitChars)
    (hl : pyLower suf = suf) (hs : pyIsSpace suf = false) :
    parse_expiry now (String.mk (ds ++ [suf]))
      = (if suf = 'h' then
           match pyIntOfChars ds with
           | some k => .at (now + k * 3600)
           | none => .noExpiry
         else if suf = 'd' then
           match pyIntOfChars ds with
           | some k => .at (now + k * 86400)
           | none => .noExpiry
         else if suf = 'm' then
           match pyIntOfChars ds with
           | some k => .at (now + k * 60)
           | none => .noExpiry
         else
           match pyIntOfChars (ds ++ [suf]) with
           | some k => .at (now + k * 60)
           | none => .noExpiry) := by
  have hns : ∀ c ∈ ds ++ [suf], pyIsSpace c = false := by
    intro c hc
    rcases List.mem_append.mp hc with hh | hh
    · exact digit_not_space c (h c hh)
    · rw [List.mem_singleton.mp hh]
      exact hs
  have hml : ∀ c ∈ ds ++ [suf], pyLower c = c := by
    intro c hc
    rcases List.mem_append.mp hc with hh | hh
    · exact digit_pyLower c (h c hh)
    · rw [List.mem_singleton.mp hh]
      exact hl
  simp only [parse_expiry]
  rw [show (String.mk (ds ++ [suf])).toList = ds ++ [suf] from rfl]
  rw [stripSpaces_eq_self _ hns, map_pyLower_eq_self _ hml]
  cases ds with
  | nil => exact absurd rfl hne
  | cons d rest =>
    have hd := digit_ne d (h d (List.mem_cons_self d rest))
    rw [show (d :: rest) ++ [suf] = d :: (rest ++ [suf]) from rfl]
    rw [isNeverWord_head d _ hd.2.2.2.1]
    simp only [Bool.false_eq_true, if_false]
    rw [if_neg (ne_delete_head d _ hd.2.2.2.2.1)]
    rw [show d :: (rest ++ [suf]) = (d :: rest) ++ [suf] from rfl]
    rw [List.getLast?_concat, List.dropLast_concat]

theorem parse_expiry_bare (now : Int) (ds : List Char) (hne : ds ≠ [])
    (h : ∀ c ∈ ds, c ∈ digitChars) :
    parse_expiry now (String.mk ds)
      = .at (now + Int.ofNat (digitsToNat ds) * 60) := by
  simp only [parse_expiry]
  rw [show (String.mk ds).toList = ds from rfl]
  rw [stripSpaces_eq_self _ (fun c hc => digit_not_space c (h c hc)),
    map_pyLower_eq_self _ (fun c hc => digit_pyLower c (h c hc))]
  cases ds with
  | nil => exact absurd rfl hne
  | cons d rest =>
    have hd := digit_ne d (h d (List.mem_cons_self d rest))
    rw [isNeverWord_head d _ hd.2.2.2.1]
    simp only [Bool.false_eq_true, if_false]
    rw [if_neg (ne_delete_head d _ hd.2.2.2.2.1)]
    rw [List.getLast?_eq_getLast (d :: rest) (List.cons_ne_nil d rest)]
    have hg := digit_ne ((d :: rest).getLast (List.cons_ne_nil d rest))
      (h _ (List.getLast_mem (List.cons_ne_nil d rest)))
    dsimp only
    rw [if_neg hg.2.2.2.2.2.1, if_neg hg.2.2.2.2.1, if_neg hg.2.2.2.2.2.2]
    rw [pyIntOfChars_digits (d :: rest) (List.cons_ne_nil d rest) h]

theorem parse_expiry_neg_hours (now : Int) (ds : List Char) (hne : ds ≠ [])
    (h : ∀ c ∈ ds, c ∈ digitChars) :
    parse_expiry now (String.mk ('-' :: ds ++ ['h']))
      = .at (now + -Int.ofNat (digitsToNat ds) * 3600) := by
  have hns : ∀ c ∈ '-' :: ds ++ ['h'], pyIsSpace c = false := by
    intro c hc
    rcases List.mem_cons.mp hc with hh | hh
    · subst hh
      rfl
    · rcases List.mem_append.mp hh with h2 | h2
      · exact digit_not_space c (h c h2)
      · rw [List.mem_singleton.mp h2]
        rfl
  have hml : ∀ c ∈ '-' :: ds ++ ['h'], pyLower c = c := by
    intro c hc
    rcases List.mem_cons.mp hc with hh | hh
    · subst hh
      rfl
    · rcases List.mem_append.mp hh with h2 | h2
      · exact digit_pyLower c (h c h2)
      · rw [List.mem_singleton.mp h2]
        rfl
  simp only [parse_expiry]
  rw [show (String.mk ('-' :: ds ++ ['h'])).toList = '-' :: ds ++ ['h'] from rfl]
  rw [stripSpaces_eq_self _ hns, map_pyLower_eq_self _ hml]
  rw [List.cons_append, isNeverWord_head '-' _ (by decide)]
  simp only [Bool.false_eq_true, if_false]
  rw [if_neg (ne_delete_head '-' _ (by decide))]
  rw [← List.cons_append, List.getLast?_concat, List.dropLast_concat]
  dsimp only
  rw [if_pos rfl, pyIntOfChars_neg_digits ds hne h]

/-- C4: `parse_expiry` (after stripping and lowercasing) returns the
never-sentinel result for "never"/"none"/"nil"/"null"/"", the delete signal
for "delete", `now + k` hours/days/minutes for the digit forms `<k>h`,
`<k>d`, `<k>m`, minutes for a bare integer `k` (also with a leading minus
sign), and for any other input — one the Python `int()` conversion rejects
— the same `None` result as the never-sentinels, which makes `/expire` set
the entry's `expires_at` to absent. -/
theorem C4_parse_expiry_contract (now : Int) :
    (parse_expiry now "never" = .noExpiry
     ∧ parse_expiry now " NONE " = .noExpiry
     ∧ parse_expiry now "nil" = .noExpiry
     ∧ parse_expiry now "Null" = .noExpiry
     ∧ parse_expiry now "" = .noExpiry)
    ∧ parse_expiry now "Delete" = .deleteNow
    ∧ (∀ ds : List Char, ds ≠ [] → (∀ c ∈ ds, c ∈ digitChars) →
        parse_expiry now (String.mk (ds ++ ['h']))
            = .at (now + Int.ofNat (digitsToNat ds) * 3600)
        ∧ parse_expiry now (String.mk (ds ++ ['d']))
            = .at (now + Int.ofNat (digitsToNat ds) * 86400)
        ∧ parse_expiry now (String.mk (ds ++ ['m']))
            = .at (now + Int.ofNat (digitsToNat ds) * 60)
        ∧ parse_expiry now (String.mk ds)
            = .at (now + Int.ofNat (digitsToNat ds) * 60)
        ∧ parse_expiry now (String.mk ('-' :: ds ++ ['h']))
            = .at (now + -Int.ofNat (digitsToNat ds) * 3600))
    ∧ (parse_expiry now "abc" = .noExpiry
       ∧ parse_expiry now "1.5h" = .noExpiry
       ∧ parse_expiry now "12x" = .noExpiry)
    ∧ (∀ v : String,
        isNeverWord ((stripSpaces v.toList).map pyLower) = false →
        (stripSpaces v.toList).map pyLower ≠ "delete".toList →
        pyIntOfChars ((stripSpaces v.toList).map pyLower).dropLast = none →
        pyIntOfChars ((stripSpaces v.toList).map pyLower) = none →
        parse_expiry now v = .noExpiry)
    ∧ (∀ (st : DB) (requester : Int) (admin : Bool) (code val : String)
        (fmt : Int → String) (e : Entry),
        get_code st code = some e →
        (e.uploader = requester ∨ admin = true) →
        parse_expiry now val = .noExpiry →
        get_code (on_expire fmt st requester admin code val now) code
          = some { e with expires_at := none }) := by
  refine ⟨⟨rfl, rfl, rfl, rfl, rfl⟩, rfl, ?_, ⟨rfl, rfl, rfl⟩, ?_, ?_⟩
  · intro ds hne h
    refine ⟨?_, ?_, ?_, parse_expiry_bare now ds hne h,
      parse_expiry_neg_hours now ds hne h⟩
    · rw [parse_expiry_concat now ds 'h' hne h rfl rfl, if_pos rfl,
        pyIntOfChars_digits ds hne h]
    · rw [parse_expiry_concat now ds 'd' hne h rfl rfl, if_neg (by decide),
        if_pos rfl, pyIntOfChars_digits ds hne h]
    · rw [parse_expiry_concat now ds 'm' hne h rfl rfl, if_neg (by decide),
        if_neg (by decide), if_pos rfl, pyIntOfChars_digits ds hne h]
  · intro v h1 h2 h3 h4
    simp only [parse_expiry]
    rw [h1]
    simp only [Bool.false_eq_true, if_false]
    rw [if_neg h2]
    cases hgl : ((stripSpaces v.toList).map pyLower).getLast? with
    | none => rfl
    | some c =>
      dsimp only
      by_cases hch : c = 'h'
      · rw [if_pos hch, h3]
      · rw [if_neg hch]
        by_cases hcd : c = 'd'
        · rw [if_pos hcd, h3]
        · rw [if_neg hcd]
          by_cases hcm : c = 'm'
          · rw [if_pos hcm, h3]
          · rw [if_neg hcm, h4]
  · intro st requester admin code val fmt e he hauth hparse
    unfold on_expire
    rw [he]
    dsimp only
    rw [if_neg ?_]
    · rw [hparse]
      dsimp only
      rw [get_code_update, if_pos rfl, he]
      rfl
    · rintro ⟨h1, h2⟩
      rcases hauth with hh | hh
      · exact h1 hh
      · exact h2 hh

/-- Witness for C4: "24h" parses to 24 hours after `now = 1000` seconds,
and an authorised `/expire` with the unparsable value "soonish" stores an
absent expiry. -/
theorem C4_parse_expiry_witness :
    parse_expiry 1000 "24h" = .at (1000 + Int.ofNat (digitsToNat ['2', '4']) * 3600)
    ∧ get_code (on_expire (fun _ => "") ⟨[("cc", entryBase)], []⟩ 42 false
        "cc" "soonish" 1000) "cc" = some { entryBase with expires_at := none } := by
  have h := C4_parse_expiry_contract 1000
  constructor
  · exact (h.2.2.1 ['2', '4'] (by decide) (by decide)).1
  · exact h.2.2.2.2.2 ⟨[("cc", entryBase)], []⟩ 42 false "cc" "soonish"
      (fun _ => "") entryBase rfl (Or.inl rfl) (by decide)

end FS
